import Mathlib

/-! Yu-Jo-Ken-Po engine (`src/scripts/engine.js`)

A shallow embedding of the state store, the round-resolution table, the three
reducers and the match-progress check of `engine.js`, followed by the
properties proved about them.

Conventions of the embedding

* JavaScript strings are `String`; a value that may also be `null` or
  `undefined` is an `Option String` (`none` stands for the absent value).
* The score counters and the round number start at `0` and are only ever
  incremented, so they are natural numbers.  In the source they are doubles, on
  which `+ 1` and `++` are exact below `2 ^ 53`: `registerRoundReducer` and
  `playRound` use exact arithmetic, `registerRoundReducerDouble` and
  `playRoundDouble` use the arithmetic of doubles, and the two agree on every
  state whose counters and round number are below `2 ^ 53`.  `bestOf` comes from
  `Number(e.target.value)` and may be any integer, negative ones included.
* `cpuPlay()` is the only source of nondeterminism.  The value it returns is
  passed to `playRound` as the extra argument `cpuChoice`; `cpuPlay` itself is a
  function of the double that `Math.random()` returns.
* The store is a module-level variable in the source; here every operation
  takes the store and returns the new one.  DOM painting is left out, except
  for the match announcement written by `announceIfMatchEnded`.
-/

namespace Engine

/-! ## State -/

/-- The `score` object of the store: `{ player, cpu, draws }`. -/
structure Score where
  player : Nat
  cpu : Nat
  draws : Nat
  deriving DecidableEq, Repr

/-- The object `{ player, cpu, outcome }`: the `last` field of the store and the
event handed to `registerRoundReducer`. -/
structure Round where
  player : Option String
  cpu : Option String
  outcome : Option String
  deriving DecidableEq, Repr

/-- One entry of `history`: `{ round, player, cpu, outcome }`. -/
structure RoundRecord where
  round : Nat
  player : Option String
  cpu : Option String
  outcome : Option String
  deriving DecidableEq, Repr

/-- The store: `{ score, bestOf, round, last, history }`. -/
structure State where
  score : Score
  bestOf : Int
  round : Nat
  last : Round
  history : List RoundRecord
  deriving DecidableEq, Repr

/-- The function `initialState()`: zero score, best of 5, round 0, no last round, empty history. -/
def initialState : State :=
  { score := { player := 0, cpu := 0, draws := 0 },
    bestOf := 5,
    round := 0,
    last := { player := none, cpu := none, outcome := none },
    history := [] }

/-- The function `setState(next)`: the store becomes a frozen copy of `next` (the call to
`renderAll` only paints). -/
def setState (next : State) : State := next

/-! ## Basic rules -/

/-- The constant `TYPES = ['monster', 'trap', 'spell']`. -/
def TYPES : List String := ["monster", "trap", "spell"]

/-- The object literal `MATRIX`, rows and columns in the order of the source.
An entry `'win'` means that the player wins. -/
def MATRIX : List (String × List (String × String)) :=
  [ ("monster", [("trap", "win"), ("spell", "lose"), ("monster", "draw")]),
    ("trap",    [("spell", "win"), ("monster", "lose"), ("trap", "draw")]),
    ("spell",   [("monster", "win"), ("trap", "lose"), ("spell", "draw")]) ]

/-- The function `decide(player, cpu) = MATRIX[player][cpu]`, as a lookup among the keys the
literal declares; `none` when a key is missing. -/
def decide (player cpu : String) : Option String :=
  (MATRIX.lookup player).bind (fun row => row.lookup cpu)

/-! ## Reducers -/

/-- The reducer `registerRoundReducer(state, { player, cpu, outcome })`, with exact
arithmetic: it is what the source computes while the counters and the round number are below
`2 ^ 53` (`registerRoundReducerDouble_eq`). -/
def registerRoundReducer (state : State) (ev : Round) : State :=
  let score : Score :=
    if ev.outcome = some "win" then { state.score with player := state.score.player + 1 }
    else if ev.outcome = some "lose" then { state.score with cpu := state.score.cpu + 1 }
    else { state.score with draws := state.score.draws + 1 }
  let round := state.round + 1
  let history := state.history ++
    [{ round := round, player := ev.player, cpu := ev.cpu, outcome := ev.outcome }]
  { state with
    score := score,
    round := round,
    last := { player := ev.player, cpu := ev.cpu, outcome := ev.outcome },
    history := history }

/-- The reducer `resetReducer(state) = { ...initialState(), bestOf: state.bestOf }`. -/
def resetReducer (state : State) : State :=
  let best := state.bestOf
  { initialState with bestOf := best }

/-- The reducer `setBestOfReducer(state, bestOf) = { ...state, bestOf }`. -/
def setBestOfReducer (state : State) (bestOf : Int) : State :=
  { state with bestOf := bestOf }

/-! ## Game logic -/

/-- The value of `Math.ceil(n / 2)` for an integer `n`, by integer arithmetic (`/` on `Int` rounds
down for a positive divisor); `ceilHalf_eq_ceil` below relates it to the ceiling of
the rational quotient. -/
def ceilHalf (n : Int) : Int := (n + 1) / 2

/-- The two texts `announceIfMatchEnded` can write to the result element, each
with the interpolated `bestOf`: "Você venceu a partida!" and "CPU venceu a partida!". -/
inductive Announcement where
  | playerWonMatch (bestOf : Int)
  | cpuWonMatch (bestOf : Int)
  deriving DecidableEq, Repr

/-- The function `announceIfMatchEnded()` on the store: the returned boolean, and the text
written to the result element when the match has ended. -/
def announceIfMatchEnded (store : State) : Bool × Option Announcement :=
  let needed := ceilHalf store.bestOf
  let player := store.score.player
  let cpu := store.score.cpu
  if (player : Int) ≥ needed ∨ (cpu : Int) ≥ needed then
    let msg := if player > cpu then Announcement.playerWonMatch store.bestOf
               else Announcement.cpuWonMatch store.bestOf
    (true, some msg)
  else (false, none)

/-- The function `playRound(playerChoice)` with the opponent's draw `cpuChoice`, as the store it
leaves behind.  The early `return`s leave the store as it was.  The reducer is the one with
exact arithmetic; `playRoundDouble_eq` relates it to the arithmetic of doubles. -/
def playRound (store : State) (playerChoice : Option String) (cpuChoice : String) : State :=
  if (announceIfMatchEnded store).1 then store
  else
    match playerChoice with
    | none => store
    | some p =>
      if ¬ (p ∈ TYPES) then store
      else
        let outcome := decide p cpuChoice
        let next := registerRoundReducer store
          { player := some p, cpu := some cpuChoice, outcome := outcome }
        setState next

/-- A run of `playRound` calls, each with its argument and the opponent's draw. -/
def playRounds (store : State) (calls : List (Option String × String)) : State :=
  calls.foldl (fun s call => playRound s call.1 call.2) store

/-- The states the page can reach: it starts from `initialState()`, and each step is a
`playRound` call (any argument, the opponent drawing one of `TYPES`), a reset, or a
change of `bestOf`. -/
inductive Reachable : State → Prop where
  | init : Reachable initialState
  | play (s : State) (arg : Option String) (c : String) :
      Reachable s → c ∈ TYPES → Reachable (playRound s arg c)
  | reset (s : State) : Reachable s → Reachable (resetReducer s)
  | setBestOf (s : State) (n : Int) : Reachable s → Reachable (setBestOfReducer s n)

/-- The store after the best-of change listener has run with the value `best`:
`setState(setBestOfReducer(store, best))` followed by `setState(resetReducer(store))`. -/
def onBestOfChange (store : State) (best : Int) : State :=
  let store1 := setState (setBestOfReducer store best)
  setState (resetReducer store1)

/-- The fresh state with `bestOf = n`: the store of a page on which only the best-of
listener has run, with the value `n`. -/
def freshState (n : Int) : State := onBestOfChange initialState n

/-- The states a match of best of `n` goes through: the fresh state with `bestOf = n`,
followed by `playRound` calls alone (any argument, the opponent drawing one of `TYPES`). -/
inductive PlayReachable (n : Int) : State → Prop where
  | fresh : PlayReachable n (freshState n)
  | play (s : State) (arg : Option String) (c : String) :
      PlayReachable n s → c ∈ TYPES → PlayReachable n (playRound s arg c)

/-- The value of the call `playRound(playerChoice)`.  The two guards leave through a bare
`return`, and the body ends on the statement `announceIfMatchEnded();`, whose boolean is
dropped: on every path the call evaluates to `undefined`, which is `none` here. -/
def playRoundValue (store : State) (playerChoice : Option String) (cpuChoice : String) :
    Option Bool :=
  if (announceIfMatchEnded store).1 then none
  else
    match playerChoice with
    | none => none
    | some p =>
      if ¬ (p ∈ TYPES) then none
      else
        let outcome := decide p cpuChoice
        let next := registerRoundReducer store
          { player := some p, cpu := some cpuChoice, outcome := outcome }
        let _ended := (announceIfMatchEnded (setState next)).1
        none

/-! ## The opponent's draw

`Math.random()` returns an IEEE-754 double in `[0, 1)`.  Every such double is
`mant / 2 ^ expo` for a significand `mant < 2 ^ 53` and an exponent `53 ≤ expo ≤ 1074`, and
the pair `(mant, expo)` stands for it.  The product `Math.random() * TYPES.length` is the
double nearest to the exact product, ties going to the even significand. -/

/-- The multiple of `q` nearest to `x`; of two equally near multiples, the even one. -/
def roundTiesToEven (x q : Nat) : Nat :=
  let lo := x / q
  let rest := x % q
  if 2 * rest < q then lo * q
  else if q < 2 * rest then (lo + 1) * q
  else if lo % 2 = 0 then lo * q
  else (lo + 1) * q

/-- The double `r * TYPES.length` for `r = mant / 2 ^ expo`, as its numerator over the same
`2 ^ expo`.  The exact numerator `mant * 3` is below `2 ^ 55`; it is kept when it fits in 53
bits, and is rounded to a multiple of 2 or of 4 when it has 54 or 55 bits. -/
def timesLength (mant : Nat) : Nat :=
  let x := mant * TYPES.length
  if x < 2 ^ 53 then x
  else if x < 2 ^ 54 then roundTiesToEven x 2
  else roundTiesToEven x 4

/-- The function `cpuPlay()` when `Math.random()` returns `mant / 2 ^ expo`:
`TYPES[Math.floor(Math.random() * TYPES.length)]`, and `none` for `undefined`. -/
def cpuPlay (mant expo : Nat) : Option String :=
  TYPES[timesLength mant / 2 ^ expo]?

/-- The largest double below `1/3`, written `0.3333333333333333`: its product with 3 is
`1 - 2 ^ (-54)`, half way between two doubles, and rounds to `1`. -/
def belowOneThird : ℚ := (2 ^ 54 - 1) / (3 * 2 ^ 54)

/-- The largest double below `2/3`, written `0.6666666666666666`: its product with 3 is
`2 - 2 ^ (-53)`, half way between two doubles, and rounds to `2`. -/
def belowTwoThirds : ℚ := (2 ^ 54 - 1) / (3 * 2 ^ 53)

/-! ## The arithmetic of the counters

The counters and the round number are doubles.  A double that is a natural number below
`2 ^ 53` has an exact successor; from `2 ^ 53` on the doubles are the even numbers, then the
multiples of 4, and so on, and the sum `x + 1` is rounded to one of them. -/

/-- The double `x + 1` (also the value `x++` stores) for a double `x` that is a natural
number: exact below `2 ^ 53`; between `2 ^ 53` and `2 ^ 54` the odd number `x + 1` lies half
way between the doubles `x` and `x + 2` and goes to the one with the even significand; from
`2 ^ 54` on the doubles are at least 4 apart and the sum rounds back to `x`. -/
def doubleSucc (x : Nat) : Nat :=
  if x < 2 ^ 53 then x + 1
  else if x < 2 ^ 54 then roundTiesToEven (x + 1) 2
  else x

/-- The reducer `registerRoundReducer(state, { player, cpu, outcome })` with the arithmetic
of doubles: `score.player++`, `score.cpu++`, `score.draws++` and `state.round + 1` are
`doubleSucc`. -/
def registerRoundReducerDouble (state : State) (ev : Round) : State :=
  let score : Score :=
    if ev.outcome = some "win" then
      { state.score with player := doubleSucc state.score.player }
    else if ev.outcome = some "lose" then
      { state.score with cpu := doubleSucc state.score.cpu }
    else { state.score with draws := doubleSucc state.score.draws }
  let round := doubleSucc state.round
  let history := state.history ++
    [{ round := round, player := ev.player, cpu := ev.cpu, outcome := ev.outcome }]
  { state with
    score := score,
    round := round,
    last := { player := ev.player, cpu := ev.cpu, outcome := ev.outcome },
    history := history }

/-- The function `playRound(playerChoice)` with the arithmetic of doubles: as `playRound`,
with `registerRoundReducerDouble` for the reducer. -/
def playRoundDouble (store : State) (playerChoice : Option String) (cpuChoice : String) :
    State :=
  if (announceIfMatchEnded store).1 then store
  else
    match playerChoice with
    | none => store
    | some p =>
      if ¬ (p ∈ TYPES) then store
      else
        let outcome := decide p cpuChoice
        let next := registerRoundReducerDouble store
          { player := some p, cpu := some cpuChoice, outcome := outcome }
        setState next

/-- A state whose round number and draw counter are `2 ^ 53`, in a best of 5 at 0 to 0; the
match is not concluded. -/
def saturatedState : State :=
  { score := { player := 0, cpu := 0, draws := 2 ^ 53 },
    bestOf := 5,
    round := 2 ^ 53,
    last := { player := some "trap", cpu := some "trap", outcome := some "draw" },
    history := [] }

/-! ## The modular-arithmetic rule of the specification -/

/-- Position of a type in the ordering `[monster, trap, spell]`, which is `TYPES`:
`0`, `1`, `2`. -/
def index (t : String) : Nat := TYPES.indexOf t

/-- The rule as the specification words it: `win` if `(index a - index b) mod 3 = 1`,
`draw` if it is `0`, `lose` otherwise. -/
def specResolve (a b : String) : String :=
  let d := ((index a : Int) - (index b : Int)) % 3
  if d = 1 then "win" else if d = 0 then "draw" else "lose"

/-- The same rule with the difference taken the other way round:
`win` if `(index b - index a) mod 3 = 1`, `draw` if it is `0`, `lose` otherwise. -/
def specResolveSwapped (a b : String) : String :=
  let d := ((index b : Int) - (index a : Int)) % 3
  if d = 1 then "win" else if d = 0 then "draw" else "lose"

/-! ## Auxiliary lemmas -/

theorem ceilHalf_eq_ceil (n : Int) : ceilHalf n = ⌈(n : ℚ) / 2⌉ := by
  unfold ceilHalf
  symm
  rw [Int.ceil_eq_iff]
  have h1 : 2 * ((n + 1) / 2) ≤ n + 1 := Int.mul_ediv_self_le (by norm_num)
  have h2 : n + 1 < 2 * ((n + 1) / 2) + 2 := Int.lt_mul_ediv_self_add (by norm_num)
  generalize (n + 1) / 2 = q at h1 h2
  have h3 : (q : ℚ) * 2 ≤ n + 1 := by exact_mod_cast (by omega : q * 2 ≤ n + 1)
  have h5 : (n : ℚ) ≤ q * 2 := by exact_mod_cast (by omega : n ≤ q * 2)
  constructor
  · rw [lt_div_iff₀ (by norm_num)]; linarith
  · rw [div_le_iff₀ (by norm_num)]; linarith

theorem mem_TYPES (t : String) : t ∈ TYPES ↔ t = "monster" ∨ t = "trap" ∨ t = "spell" := by
  simp [TYPES]

theorem announce_fst_eq_true (store : State) :
    (announceIfMatchEnded store).1 = true ↔
      ((store.score.player : Int) ≥ ceilHalf store.bestOf ∨
        (store.score.cpu : Int) ≥ ceilHalf store.bestOf) := by
  unfold announceIfMatchEnded
  by_cases h : (store.score.player : Int) ≥ ceilHalf store.bestOf ∨
      (store.score.cpu : Int) ≥ ceilHalf store.bestOf
  · simp only [h, if_true]
  · simp only [h, if_false]
    simp

theorem playRound_of_concluded (store : State) (arg : Option String) (c : String)
    (h : (store.score.player : Int) ≥ ceilHalf store.bestOf ∨
      (store.score.cpu : Int) ≥ ceilHalf store.bestOf) :
    playRound store arg c = store := by
  unfold playRound
  rw [if_pos ((announce_fst_eq_true store).2 h)]

theorem playRound_of_invalid (store : State) (arg : Option String) (c : String)
    (h : ∀ p, arg = some p → p ∉ TYPES) : playRound store arg c = store := by
  unfold playRound
  split_ifs with h1
  · rfl
  · cases arg with
    | none => rfl
    | some p => simp only [h p rfl, not_false_eq_true, if_true]

theorem playRound_of_valid (store : State) (p c : String)
    (hn : ¬ ((store.score.player : Int) ≥ ceilHalf store.bestOf ∨
      (store.score.cpu : Int) ≥ ceilHalf store.bestOf))
    (hp : p ∈ TYPES) :
    playRound store (some p) c =
      registerRoundReducer store { player := some p, cpu := some c, outcome := decide p c } := by
  unfold playRound
  have h1 : ¬ (announceIfMatchEnded store).1 = true := fun h => hn ((announce_fst_eq_true store).1 h)
  rw [if_neg h1]
  simp only [hp, not_true_eq_false, if_false, setState]

theorem playRound_cases (store : State) (arg : Option String) (c : String) :
    playRound store arg c = store ∨
      ∃ p, p ∈ TYPES ∧ playRound store arg c =
        registerRoundReducer store { player := some p, cpu := some c, outcome := decide p c } := by
  by_cases hn : (store.score.player : Int) ≥ ceilHalf store.bestOf ∨
      (store.score.cpu : Int) ≥ ceilHalf store.bestOf
  · exact Or.inl (playRound_of_concluded store arg c hn)
  · by_cases hv : ∀ p, arg = some p → p ∉ TYPES
    · exact Or.inl (playRound_of_invalid store arg c hv)
    · push_neg at hv
      obtain ⟨p, rfl, hp⟩ := hv
      exact Or.inr ⟨p, hp, playRound_of_valid store p c hn hp⟩

theorem registerRoundReducer_counts (s : State) (ev : Round) :
    (registerRoundReducer s ev).score.player + (registerRoundReducer s ev).score.cpu +
        (registerRoundReducer s ev).score.draws
      = s.score.player + s.score.cpu + s.score.draws + 1 := by
  unfold registerRoundReducer
  dsimp only
  split_ifs <;> dsimp only <;> omega

theorem freshState_eq (n : Int) : freshState n = { initialState with bestOf := n } := rfl

theorem ceilHalf_pos (n : Int) (hn : 1 ≤ n) : 1 ≤ ceilHalf n := by
  unfold ceilHalf
  omega

theorem playRound_cases_open (store : State) (arg : Option String) (c : String) :
    playRound store arg c = store ∨
      ((store.score.player : Int) < ceilHalf store.bestOf ∧
        (store.score.cpu : Int) < ceilHalf store.bestOf ∧
        ∃ p, p ∈ TYPES ∧ arg = some p ∧ playRound store arg c =
          registerRoundReducer store
            { player := some p, cpu := some c, outcome := decide p c }) := by
  by_cases hn : (store.score.player : Int) ≥ ceilHalf store.bestOf ∨
      (store.score.cpu : Int) ≥ ceilHalf store.bestOf
  · exact Or.inl (playRound_of_concluded store arg c hn)
  · by_cases hv : ∀ p, arg = some p → p ∉ TYPES
    · exact Or.inl (playRound_of_invalid store arg c hv)
    · push_neg at hv hn
      obtain ⟨p, rfl, hp⟩ := hv
      exact Or.inr ⟨hn.1, hn.2, p, hp, rfl,
        playRound_of_valid store p c (by omega) hp⟩

theorem registerRoundReducer_score (s : State) (ev : Round) :
    ((registerRoundReducer s ev).score.player = s.score.player + 1 ∧
        (registerRoundReducer s ev).score.cpu = s.score.cpu) ∨
      ((registerRoundReducer s ev).score.player = s.score.player ∧
        (registerRoundReducer s ev).score.cpu = s.score.cpu + 1) ∨
      ((registerRoundReducer s ev).score.player = s.score.player ∧
        (registerRoundReducer s ev).score.cpu = s.score.cpu) := by
  unfold registerRoundReducer
  dsimp only
  split_ifs <;> simp

theorem playRound_bestOf (store : State) (arg : Option String) (c : String) :
    (playRound store arg c).bestOf = store.bestOf := by
  rcases playRound_cases store arg c with h | ⟨p, _, h⟩ <;> rw [h]
  rfl

theorem playReachable_inv (n : Int) (hn : 1 ≤ n) (s : State) (h : PlayReachable n s) :
    s.bestOf = n ∧ (s.score.player : Int) ≤ ceilHalf n ∧ (s.score.cpu : Int) ≤ ceilHalf n ∧
      ¬ ((s.score.player : Int) = ceilHalf n ∧ (s.score.cpu : Int) = ceilHalf n) := by
  have hpos := ceilHalf_pos n hn
  induction h with
  | fresh =>
    refine ⟨rfl, ?_, ?_, ?_⟩
    · show ((0 : Nat) : Int) ≤ ceilHalf n
      omega
    · show ((0 : Nat) : Int) ≤ ceilHalf n
      omega
    · show ¬ (((0 : Nat) : Int) = ceilHalf n ∧ ((0 : Nat) : Int) = ceilHalf n)
      omega
  | play s arg c _ _ ih =>
    obtain ⟨hb, ih1, ih2, ih3⟩ := ih
    rcases playRound_cases_open s arg c with h1 | ⟨hp, hc, p, _, _, h1⟩
    · rw [h1]; exact ⟨hb, ih1, ih2, ih3⟩
    · rw [h1]
      rw [hb] at hp hc
      refine ⟨hb, ?_⟩
      rcases registerRoundReducer_score s ⟨some p, some c, decide p c⟩ with
        ⟨e1, e2⟩ | ⟨e1, e2⟩ | ⟨e1, e2⟩ <;> rw [e1, e2] <;> push_cast <;> omega

theorem announce_snd_of_concluded (store : State)
    (h : (store.score.player : Int) ≥ ceilHalf store.bestOf ∨
      (store.score.cpu : Int) ≥ ceilHalf store.bestOf) :
    (announceIfMatchEnded store).2 =
      some (if store.score.player > store.score.cpu then Announcement.playerWonMatch store.bestOf
        else Announcement.cpuWonMatch store.bestOf) := by
  unfold announceIfMatchEnded
  simp only [h, if_true]

theorem playReachable_playRounds (n : Int) (calls : List (Option String × String)) :
    ∀ s : State, PlayReachable n s → (∀ call ∈ calls, call.2 ∈ TYPES) →
      PlayReachable n (playRounds s calls) := by
  induction calls with
  | nil => intro s hs _; exact hs
  | cons call rest ih =>
    intro s hs hall
    have h1 : PlayReachable n (playRound s call.1 call.2) :=
      PlayReachable.play s call.1 call.2 hs (hall call (List.mem_cons_self _ _))
    exact ih _ h1 (fun x hx => hall x (List.mem_cons_of_mem _ hx))

theorem lookup_some_mem {β : Type} (l : List (String × β)) (k : String) (v : β)
    (h : l.lookup k = some v) : (k, v) ∈ l := by
  induction l with
  | nil => simp [List.lookup] at h
  | cons hd tl ih =>
    obtain ⟨a, b⟩ := hd
    by_cases hk : k = a
    · subst hk
      simp only [List.lookup, beq_self_eq_true] at h
      cases h
      exact List.mem_cons_self _ _
    · have hb : (k == a) = false := by simpa using hk
      simp only [List.lookup, hb] at h
      exact List.mem_cons_of_mem _ (ih h)

theorem decide_some_mem (p c o : String) (h : decide p c = some o) :
    p ∈ TYPES ∧ c ∈ TYPES := by
  unfold decide at h
  cases hrow : MATRIX.lookup p with
  | none => rw [hrow] at h; cases h
  | some row =>
    rw [hrow] at h
    have h1 := lookup_some_mem MATRIX p row hrow
    have h2 := lookup_some_mem row c o h
    simp only [MATRIX, List.mem_cons, Prod.mk.injEq, List.mem_singleton, List.not_mem_nil,
      or_false] at h1
    rcases h1 with ⟨rfl, rfl⟩ | ⟨rfl, rfl⟩ | ⟨rfl, rfl⟩ <;>
      simp only [List.mem_cons, Prod.mk.injEq, List.mem_singleton, List.not_mem_nil,
        or_false] at h2 <;>
      rcases h2 with ⟨rfl, rfl⟩ | ⟨rfl, rfl⟩ | ⟨rfl, rfl⟩ <;> exact ⟨by decide, by decide⟩

theorem winning_run_aux (calls : List (Option String × String)) :
    ∀ s : State,
      (∀ call ∈ calls, ∃ p, call.1 = some p ∧ decide p call.2 = some "win") →
      (s.score.player : Int) + calls.length ≤ ceilHalf s.bestOf →
      (s.score.cpu : Int) < ceilHalf s.bestOf →
      (playRounds s calls).score.player = s.score.player + calls.length ∧
        (playRounds s calls).score.cpu = s.score.cpu ∧
        (playRounds s calls).round = s.round + calls.length ∧
        (playRounds s calls).bestOf = s.bestOf := by
  induction calls with
  | nil => intro s _ _ _; exact ⟨rfl, rfl, rfl, rfl⟩
  | cons call rest ih =>
    intro s hwin hlen hcpu
    obtain ⟨p, hp1, hp2⟩ := hwin call (List.mem_cons_self _ _)
    rw [List.length_cons] at hlen
    push_cast at hlen
    have hstep : playRound s call.1 call.2 =
        registerRoundReducer s { player := some p, cpu := some call.2, outcome := some "win" } := by
      rw [hp1, playRound_of_valid s p call.2 (by omega) (decide_some_mem p call.2 "win" hp2).1,
        hp2]
    have hrun : playRounds s (call :: rest) = playRounds (playRound s call.1 call.2) rest := rfl
    rw [hrun, hstep]
    have hnext := ih (registerRoundReducer s
      { player := some p, cpu := some call.2, outcome := some "win" })
      (fun x hx => hwin x (List.mem_cons_of_mem _ hx))
      (by simp only [registerRoundReducer, if_true]; push_cast; omega)
      (by simp only [registerRoundReducer, if_true]; exact hcpu)
    obtain ⟨e1, e2, e3, e4⟩ := hnext
    rw [e1, e2, e3, e4, List.length_cons]
    simp only [registerRoundReducer, if_true]
    refine ⟨by omega, trivial, by omega, trivial⟩

theorem decide_outcome (p c : String) (hp : p ∈ TYPES) (hc : c ∈ TYPES) :
    decide p c = some "win" ∨ decide p c = some "lose" ∨ decide p c = some "draw" := by
  rw [mem_TYPES] at hp hc
  rcases hp with rfl | rfl | rfl <;> rcases hc with rfl | rfl | rfl <;> decide

theorem registerRoundReducer_history_inv (s : State) (player cpu outcome : Option String)
    (ho : outcome = some "win" ∨ outcome = some "lose" ∨ outcome = some "draw")
    (hlen : s.history.length = s.round)
    (hw : s.score.player = (s.history.filter (fun r => r.outcome = some "win")).length)
    (hl : s.score.cpu = (s.history.filter (fun r => r.outcome = some "lose")).length)
    (hd : s.score.draws = (s.history.filter (fun r => r.outcome = some "draw")).length)
    (hk : ∀ k r, s.history[k]? = some r → r.round = k + 1) :
    (registerRoundReducer s ⟨player, cpu, outcome⟩).history.length =
        (registerRoundReducer s ⟨player, cpu, outcome⟩).round ∧
      (registerRoundReducer s ⟨player, cpu, outcome⟩).score.player =
        ((registerRoundReducer s ⟨player, cpu, outcome⟩).history.filter
          (fun r => r.outcome = some "win")).length ∧
      (registerRoundReducer s ⟨player, cpu, outcome⟩).score.cpu =
        ((registerRoundReducer s ⟨player, cpu, outcome⟩).history.filter
          (fun r => r.outcome = some "lose")).length ∧
      (registerRoundReducer s ⟨player, cpu, outcome⟩).score.draws =
        ((registerRoundReducer s ⟨player, cpu, outcome⟩).history.filter
          (fun r => r.outcome = some "draw")).length ∧
      (∀ k r, (registerRoundReducer s ⟨player, cpu, outcome⟩).history[k]? = some r →
        r.round = k + 1) := by
  refine ⟨?_, ?_, ?_, ?_, ?_⟩
  · simp only [registerRoundReducer, List.length_append, List.length_singleton]
    omega
  · rcases ho with rfl | rfl | rfl <;>
      simp [registerRoundReducer, List.filter_append, List.filter_cons, hw]
  · rcases ho with rfl | rfl | rfl <;>
      simp [registerRoundReducer, List.filter_append, List.filter_cons, hl]
  · rcases ho with rfl | rfl | rfl <;>
      simp [registerRoundReducer, List.filter_append, List.filter_cons, hd]
  · intro k r hr
    have hh : (registerRoundReducer s ⟨player, cpu, outcome⟩).history =
        s.history ++ [⟨s.round + 1, player, cpu, outcome⟩] := rfl
    rw [hh] at hr
    by_cases hlt : k < s.history.length
    · rw [List.getElem?_append_left hlt] at hr
      exact hk k r hr
    · rw [List.getElem?_append_right (by omega)] at hr
      cases hidx : k - s.history.length with
      | zero =>
        rw [hidx] at hr
        simp only [List.getElem?_cons_zero, Option.some.injEq] at hr
        rw [← hr]
        show s.round + 1 = k + 1
        omega
      | succ m =>
        rw [hidx] at hr
        simp at hr

theorem reachable_history_inv (s : State) (h : Reachable s) :
    s.history.length = s.round ∧
      s.score.player = (s.history.filter (fun r => r.outcome = some "win")).length ∧
      s.score.cpu = (s.history.filter (fun r => r.outcome = some "lose")).length ∧
      s.score.draws = (s.history.filter (fun r => r.outcome = some "draw")).length ∧
      (∀ k r, s.history[k]? = some r → r.round = k + 1) ∧
      (∀ r ∈ s.history, ∃ p c, p ∈ TYPES ∧ c ∈ TYPES ∧ r.player = some p ∧ r.cpu = some c ∧
        r.outcome = decide p c) := by
  induction h with
  | init =>
    refine ⟨rfl, rfl, rfl, rfl, ?_, ?_⟩
    · intro k r hr
      simp [initialState] at hr
    · intro r hr
      simp [initialState] at hr
  | play s arg c _ hc ih =>
    obtain ⟨i1, i2, i3, i4, i5, i6⟩ := ih
    rcases playRound_cases s arg c with h1 | ⟨p, hp, h1⟩
    · rw [h1]; exact ⟨i1, i2, i3, i4, i5, i6⟩
    · rw [h1]
      obtain ⟨j1, j2, j3, j4, j5⟩ := registerRoundReducer_history_inv s (some p) (some c)
        (decide p c) (decide_outcome p c hp hc) i1 i2 i3 i4 i5
      refine ⟨j1, j2, j3, j4, j5, ?_⟩
      intro r hr
      have hh : (registerRoundReducer s ⟨some p, some c, decide p c⟩).history =
          s.history ++ [⟨s.round + 1, some p, some c, decide p c⟩] := rfl
      rw [hh, List.mem_append, List.mem_singleton] at hr
      rcases hr with hr | rfl
      · exact i6 r hr
      · exact ⟨p, c, hp, hc, rfl, rfl, rfl⟩
  | reset s _ _ =>
    refine ⟨rfl, rfl, rfl, rfl, ?_, ?_⟩
    · intro k r hr
      simp [resetReducer, initialState] at hr
    · intro r hr
      simp [resetReducer, initialState] at hr
  | setBestOf s n _ ih => exact ih

theorem timesLength_le (mant : Nat) :
    mant * 3 ≤ timesLength mant + 2 ∧ timesLength mant ≤ mant * 3 + 2 := by
  unfold timesLength roundTiesToEven
  simp only [TYPES, List.length_cons, List.length_nil]
  norm_num
  split_ifs <;> omega

theorem timesLength_div_53 (mant : Nat) (hm : mant < 2 ^ 53) :
    timesLength mant / 2 ^ 53 < 3 ∧
      (timesLength mant / 2 ^ 53 = 0 ↔
        mant * 3 < 2 ^ 53 ∧ mant * 3 * 2 ^ 54 + 2 ^ 53 ≠ 2 ^ 54 * 2 ^ 53) ∧
      (timesLength mant / 2 ^ 53 = 2 ↔
        2 * 2 ^ 53 ≤ mant * 3 ∨ mant * 3 * 2 ^ 53 + 2 ^ 53 = 2 ^ 54 * 2 ^ 53) := by
  unfold timesLength roundTiesToEven
  simp only [TYPES, List.length_cons, List.length_nil]
  norm_num
  split_ifs <;> omega

theorem timesLength_div_54 (mant : Nat) (hm : mant < 2 ^ 53) :
    timesLength mant / 2 ^ 54 < 3 ∧
      (timesLength mant / 2 ^ 54 = 0 ↔
        mant * 3 < 2 ^ 54 ∧ mant * 3 * 2 ^ 54 + 2 ^ 54 ≠ 2 ^ 54 * 2 ^ 54) ∧
      (timesLength mant / 2 ^ 54 = 2 ↔
        2 * 2 ^ 54 ≤ mant * 3 ∨ mant * 3 * 2 ^ 53 + 2 ^ 54 = 2 ^ 54 * 2 ^ 54) := by
  unfold timesLength roundTiesToEven
  simp only [TYPES, List.length_cons, List.length_nil]
  norm_num
  split_ifs <;> omega

theorem timesLength_div (mant expo : Nat) (hm : mant < 2 ^ 53) (he : 53 ≤ expo) :
    timesLength mant / 2 ^ expo < 3 ∧
      (timesLength mant / 2 ^ expo = 0 ↔
        mant * 3 < 2 ^ expo ∧ mant * 3 * 2 ^ 54 + 2 ^ expo ≠ 2 ^ 54 * 2 ^ expo) ∧
      (timesLength mant / 2 ^ expo = 2 ↔
        2 * 2 ^ expo ≤ mant * 3 ∨ mant * 3 * 2 ^ 53 + 2 ^ expo = 2 ^ 54 * 2 ^ expo) := by
  by_cases h53 : expo = 53
  · subst h53; exact timesLength_div_53 mant hm
  · by_cases h54 : expo = 54
    · subst h54; exact timesLength_div_54 mant hm
    · have hP : 2 ^ 55 ≤ 2 ^ expo := Nat.pow_le_pow_right (by norm_num) (by omega)
      have hb := timesLength_le mant
      have hlt : timesLength mant < 2 ^ expo := by
        norm_num at hm hP ⊢
        omega
      rw [Nat.div_eq_of_lt hlt]
      generalize 2 ^ expo = P at hP hlt
      norm_num at hm hP ⊢
      omega

theorem random_lt_third (mant expo : Nat) :
    (mant : ℚ) / 2 ^ expo < 1 / 3 ↔ mant * 3 < 2 ^ expo := by
  rw [div_lt_div_iff₀ (by positivity) (by norm_num)]
  norm_cast
  simp

theorem random_ge_two_thirds (mant expo : Nat) :
    2 / 3 ≤ (mant : ℚ) / 2 ^ expo ↔ 2 * 2 ^ expo ≤ mant * 3 := by
  rw [div_le_div_iff₀ (by norm_num) (by positivity)]
  norm_cast

theorem random_eq_belowOneThird (mant expo : Nat) :
    (mant : ℚ) / 2 ^ expo = belowOneThird ↔ mant * 3 * 2 ^ 54 + 2 ^ expo = 2 ^ 54 * 2 ^ expo := by
  unfold belowOneThird
  rw [div_eq_div_iff (by positivity) (by norm_num)]
  constructor
  · intro h
    have h2 : ((mant * 3 * 2 ^ 54 + 2 ^ expo : Nat) : ℚ) = ((2 ^ 54 * 2 ^ expo : Nat) : ℚ) := by
      push_cast
      linarith
    exact_mod_cast h2
  · intro h
    have h2 : ((mant * 3 * 2 ^ 54 + 2 ^ expo : Nat) : ℚ) = ((2 ^ 54 * 2 ^ expo : Nat) : ℚ) := by
      exact_mod_cast h
    push_cast at h2
    linarith

theorem random_eq_belowTwoThirds (mant expo : Nat) :
    (mant : ℚ) / 2 ^ expo = belowTwoThirds ↔ mant * 3 * 2 ^ 53 + 2 ^ expo = 2 ^ 54 * 2 ^ expo := by
  unfold belowTwoThirds
  rw [div_eq_div_iff (by positivity) (by norm_num)]
  constructor
  · intro h
    have h2 : ((mant * 3 * 2 ^ 53 + 2 ^ expo : Nat) : ℚ) = ((2 ^ 54 * 2 ^ expo : Nat) : ℚ) := by
      push_cast
      linarith
    exact_mod_cast h2
  · intro h
    have h2 : ((mant * 3 * 2 ^ 53 + 2 ^ expo : Nat) : ℚ) = ((2 ^ 54 * 2 ^ expo : Nat) : ℚ) := by
      exact_mod_cast h
    push_cast at h2
    linarith
theorem cpuPlay_index (i : Nat) (hi : i < 3) :
    (TYPES[i]? = some "monster" ↔ i = 0) ∧ (TYPES[i]? = some "trap" ↔ i = 1) ∧
      (TYPES[i]? = some "spell" ↔ i = 2) := by
  have h : i = 0 ∨ i = 1 ∨ i = 2 := by omega
  rcases h with rfl | rfl | rfl <;> decide

theorem doubleSucc_of_lt (x : Nat) (h : x < 2 ^ 53) : doubleSucc x = x + 1 := by
  unfold doubleSucc
  rw [if_pos h]

theorem registerRoundReducerDouble_eq (s : State) (ev : Round)
    (hround : s.round < 2 ^ 53) (hplayer : s.score.player < 2 ^ 53)
    (hcpu : s.score.cpu < 2 ^ 53) (hdraws : s.score.draws < 2 ^ 53) :
    registerRoundReducerDouble s ev = registerRoundReducer s ev := by
  unfold registerRoundReducerDouble registerRoundReducer
  rw [doubleSucc_of_lt _ hround, doubleSucc_of_lt _ hplayer, doubleSucc_of_lt _ hcpu,
    doubleSucc_of_lt _ hdraws]

theorem playRoundDouble_eq (store : State) (arg : Option String) (c : String)
    (hround : store.round < 2 ^ 53) (hplayer : store.score.player < 2 ^ 53)
    (hcpu : store.score.cpu < 2 ^ 53) (hdraws : store.score.draws < 2 ^ 53) :
    playRoundDouble store arg c = playRound store arg c := by
  unfold playRoundDouble playRound
  simp only [registerRoundReducerDouble_eq store _ hround hplayer hcpu hdraws]

/-! ## Round resolution -/

/-- C1: on the nine ordered pairs of the three types `decide` is defined and is the fixed
table: monster beats trap, trap beats spell, spell beats monster; equal choices draw; the
three remaining pairs lose.  Every pair of types gets one of the three outcomes. -/
theorem decide_table :
    (decide "monster" "trap" = some "win" ∧ decide "trap" "spell" = some "win" ∧
      decide "spell" "monster" = some "win") ∧
    (decide "monster" "monster" = some "draw" ∧ decide "trap" "trap" = some "draw" ∧
      decide "spell" "spell" = some "draw") ∧
    (decide "monster" "spell" = some "lose" ∧ decide "trap" "monster" = some "lose" ∧
      decide "spell" "trap" = some "lose") ∧
    (∀ player cpu : String, player ∈ TYPES → cpu ∈ TYPES →
      decide player cpu = some "win" ∨ decide player cpu = some "lose" ∨
        decide player cpu = some "draw") := by
  refine ⟨by decide, by decide, by decide, ?_⟩
  intro player cpu hp hc
  rw [mem_TYPES] at hp hc
  rcases hp with rfl | rfl | rfl <;> rcases hc with rfl | rfl | rfl <;> decide

/-- C1, at the scenario of the specification: spell against monster wins, trap against
monster loses, spell against spell draws, and the pair (spell, monster) is covered by the
general statement. -/
theorem decide_table_witness :
    decide "spell" "monster" = some "win" ∧ decide "trap" "monster" = some "lose" ∧
      decide "spell" "spell" = some "draw" ∧
      (decide "spell" "monster" = some "win" ∨ decide "spell" "monster" = some "lose" ∨
        decide "spell" "monster" = some "draw") :=
  ⟨decide_table.1.2.2, decide_table.2.2.1.2.1, decide_table.2.1.2.2,
    decide_table.2.2.2 "spell" "monster" (by decide) (by decide)⟩

/-- C9: for types `a` and `b`, `decide a b` is a win exactly when `decide b a` is a loss,
and `decide a b` is a draw exactly when `a = b`. -/
theorem decide_antisymm (a b : String) (ha : a ∈ TYPES) (hb : b ∈ TYPES) :
    (decide a b = some "win" ↔ decide b a = some "lose") ∧
      (decide a b = some "draw" ↔ a = b) := by
  rw [mem_TYPES] at ha hb
  rcases ha with rfl | rfl | rfl <;> rcases hb with rfl | rfl | rfl <;> decide

/-- C9 at monster against trap: a win one way, a loss the other way, and no draw. -/
theorem decide_antisymm_witness :
    "monster" ∈ TYPES ∧ "trap" ∈ TYPES ∧
      (decide "monster" "trap" = some "win" ↔ decide "trap" "monster" = some "lose") ∧
      (decide "monster" "trap" = some "draw" ↔ "monster" = "trap") :=
  ⟨by decide, by decide, decide_antisymm "monster" "trap" (by decide) (by decide)⟩

/-- C10 as stated fails: trap has index 1 and monster index 0, so the rule of the
specification gives a win for trap against monster, where the table gives a loss. -/
theorem decide_ne_specResolve :
    decide "trap" "monster" = some "lose" ∧ specResolve "trap" "monster" = "win" ∧
      decide "trap" "monster" ≠ some (specResolve "trap" "monster") := by
  decide

/-- C10, amended: with index monster = 0, trap = 1, spell = 2, the table lookup
`decide a b` is the modular rule with the difference taken as `index b - index a`:
win if it is 1 modulo 3, draw if it is 0, lose otherwise. -/
theorem decide_eq_specResolveSwapped (a b : String) (ha : a ∈ TYPES) (hb : b ∈ TYPES) :
    decide a b = some (specResolveSwapped a b) := by
  rw [mem_TYPES] at ha hb
  rcases ha with rfl | rfl | rfl <;> rcases hb with rfl | rfl | rfl <;> decide

/-- C10, amended, at trap against monster: the swapped rule gives the loss of the table. -/
theorem decide_eq_specResolveSwapped_witness :
    "trap" ∈ TYPES ∧ "monster" ∈ TYPES ∧ specResolveSwapped "trap" "monster" = "lose" ∧
      decide "trap" "monster" = some (specResolveSwapped "trap" "monster") :=
  ⟨by decide, by decide, by decide,
    decide_eq_specResolveSwapped "trap" "monster" (by decide) (by decide)⟩

/-! ## Reducers -/

/-- C3 as stated fails: on a state whose round number and draw counter are `2 ^ 53`, a drawn
round leaves both at `2 ^ 53`, because `2 ^ 53 + 1` is not a double and the sum rounds back;
neither is one larger than before. -/
theorem registerRoundReducer_at_two_pow_53 :
    (registerRoundReducerDouble saturatedState
        ⟨some "trap", some "trap", some "draw"⟩).round = saturatedState.round ∧
      (registerRoundReducerDouble saturatedState
        ⟨some "trap", some "trap", some "draw"⟩).score.draws = saturatedState.score.draws ∧
      (registerRoundReducerDouble saturatedState
        ⟨some "trap", some "trap", some "draw"⟩).round ≠ saturatedState.round + 1 ∧
      (registerRoundReducerDouble saturatedState
        ⟨some "trap", some "trap", some "draw"⟩).score.draws ≠
          saturatedState.score.draws + 1 := by
  decide

/-- C3, amended: on a state whose round number and counters are below `2 ^ 53`, for an event
whose outcome is win, lose or draw, the reducer adds one to the counter of that outcome
(player on win, cpu on lose, draws on draw) and keeps the other two, sets `round` to
`s.round + 1`, appends to the history the single record of that round, sets `last` to the
event, and keeps `bestOf`; there the arithmetic of doubles is the exact one. -/
theorem registerRoundReducer_spec (s : State) (player cpu outcome : Option String)
    (ho : outcome = some "win" ∨ outcome = some "lose" ∨ outcome = some "draw")
    (hround : s.round < 2 ^ 53) (hplayer : s.score.player < 2 ^ 53)
    (hcpu : s.score.cpu < 2 ^ 53) (hdraws : s.score.draws < 2 ^ 53) :
    registerRoundReducerDouble s ⟨player, cpu, outcome⟩ =
        registerRoundReducer s ⟨player, cpu, outcome⟩ ∧
      (registerRoundReducerDouble s ⟨player, cpu, outcome⟩).score =
        { player := s.score.player + (if outcome = some "win" then 1 else 0),
          cpu := s.score.cpu + (if outcome = some "lose" then 1 else 0),
          draws := s.score.draws + (if outcome = some "draw" then 1 else 0) } ∧
      (registerRoundReducerDouble s ⟨player, cpu, outcome⟩).round = s.round + 1 ∧
      (registerRoundReducerDouble s ⟨player, cpu, outcome⟩).history =
        s.history ++ [⟨s.round + 1, player, cpu, outcome⟩] ∧
      (registerRoundReducerDouble s ⟨player, cpu, outcome⟩).last = ⟨player, cpu, outcome⟩ ∧
      (registerRoundReducerDouble s ⟨player, cpu, outcome⟩).bestOf = s.bestOf := by
  rw [registerRoundReducerDouble_eq s _ hround hplayer hcpu hdraws]
  refine ⟨rfl, ?_, rfl, rfl, rfl, rfl⟩
  rcases ho with rfl | rfl | rfl <;> simp [registerRoundReducer]

/-- C3, amended, on the state after one won round, with a lost round as the event: only the
cpu counter moves, the round becomes 2 and the history has the two records. -/
theorem registerRoundReducer_spec_witness :
    (registerRoundReducerDouble
        (registerRoundReducerDouble initialState ⟨some "monster", some "trap", some "win"⟩)
        ⟨some "trap", some "monster", some "lose"⟩).score = { player := 1, cpu := 1, draws := 0 } ∧
      (registerRoundReducerDouble
        (registerRoundReducerDouble initialState ⟨some "monster", some "trap", some "win"⟩)
        ⟨some "trap", some "monster", some "lose"⟩).history =
        [⟨1, some "monster", some "trap", some "win"⟩,
          ⟨2, some "trap", some "monster", some "lose"⟩] := by
  have h := registerRoundReducer_spec
    (registerRoundReducerDouble initialState ⟨some "monster", some "trap", some "win"⟩)
    (some "trap") (some "monster") (some "lose") (by decide) (by decide) (by decide)
    (by decide) (by decide)
  exact ⟨h.2.1.trans (by decide), h.2.2.2.1.trans (by decide)⟩

/-- C7: `resetReducer` gives round 0, an empty history, the zero score, no last round and
the `bestOf` of its argument; two states with the same `bestOf` reset to the same state, and
resetting twice is resetting once. -/
theorem resetReducer_spec (s t : State) (h : t.bestOf = s.bestOf) :
    (resetReducer s).round = 0 ∧ (resetReducer s).history = [] ∧
      (resetReducer s).score = { player := 0, cpu := 0, draws := 0 } ∧
      (resetReducer s).last = { player := none, cpu := none, outcome := none } ∧
      (resetReducer s).bestOf = s.bestOf ∧
      resetReducer t = resetReducer s ∧
      resetReducer (resetReducer s) = resetReducer s := by
  refine ⟨rfl, rfl, rfl, rfl, rfl, ?_, rfl⟩
  simp only [resetReducer, h]

/-- C7 on the initial state and the state after one round: both have `bestOf = 5` and both
reset to the initial state. -/
theorem resetReducer_spec_witness :
    (playRound initialState (some "monster") "trap").bestOf = initialState.bestOf ∧
      (resetReducer initialState).round = 0 ∧
      resetReducer (playRound initialState (some "monster") "trap") = resetReducer initialState :=
  ⟨by decide,
    (resetReducer_spec initialState (playRound initialState (some "monster") "trap") (by decide)).1,
    (resetReducer_spec initialState (playRound initialState (some "monster") "trap")
      (by decide)).2.2.2.2.2.1⟩

/-- C8: `setBestOfReducer s n` has `bestOf = n` and the score, round, last round and history
of `s`; the history is not cleared. -/
theorem setBestOfReducer_spec (s : State) (n : Int) :
    (setBestOfReducer s n).bestOf = n ∧ (setBestOfReducer s n).score = s.score ∧
      (setBestOfReducer s n).round = s.round ∧ (setBestOfReducer s n).last = s.last ∧
      (setBestOfReducer s n).history = s.history :=
  ⟨rfl, rfl, rfl, rfl, rfl⟩

/-! ## Playing a round -/

/-- C2 as stated fails: the store with round number and draw counter `2 ^ 53`, in a best of
5 at 0 to 0, is not concluded, and a round of trap against trap is registered with the round
number `2 ^ 53` again: the round does not grow, and the record is numbered `2 ^ 53`. -/
theorem playRound_at_two_pow_53 :
    (saturatedState.score.player : Int) < ceilHalf saturatedState.bestOf ∧
      (saturatedState.score.cpu : Int) < ceilHalf saturatedState.bestOf ∧
      (playRoundDouble saturatedState (some "trap") "trap").round = saturatedState.round ∧
      (playRoundDouble saturatedState (some "trap") "trap").round ≠ saturatedState.round + 1 ∧
      (playRoundDouble saturatedState (some "trap") "trap").history =
        [⟨saturatedState.round, some "trap", some "trap", some "draw"⟩] := by
  decide

/-- C2, amended: on a store that is not concluded and whose round number and counters are
below `2 ^ 53`, with a valid choice and a cpu draw among the three types, `playRound`
replaces the store by the reducer applied to the event
`{player, cpu, outcome: decide(player, cpu)}`: the round grows by one, the history grows by
the one record of that round, and the outcome of that record is `decide player cpu`; there
the arithmetic of doubles is the exact one. -/
theorem playRound_spec (store : State) (p c : String)
    (hplayer : (store.score.player : Int) < ceilHalf store.bestOf)
    (hcpu : (store.score.cpu : Int) < ceilHalf store.bestOf)
    (hp : p ∈ TYPES) (hc : c ∈ TYPES)
    (hround : store.round < 2 ^ 53) (hplayerSafe : store.score.player < 2 ^ 53)
    (hcpuSafe : store.score.cpu < 2 ^ 53) (hdrawsSafe : store.score.draws < 2 ^ 53) :
    playRoundDouble store (some p) c =
        registerRoundReducerDouble store
          { player := some p, cpu := some c, outcome := decide p c } ∧
      playRoundDouble store (some p) c = playRound store (some p) c ∧
      (playRoundDouble store (some p) c).round = store.round + 1 ∧
      (playRoundDouble store (some p) c).history.length = store.history.length + 1 ∧
      (playRoundDouble store (some p) c).history =
        store.history ++ [⟨store.round + 1, some p, some c, decide p c⟩] ∧
      (decide p c = some "win" ∨ decide p c = some "lose" ∨ decide p c = some "draw") := by
  have h := playRound_of_valid store p c (by omega) hp
  rw [playRoundDouble_eq store (some p) c hround hplayerSafe hcpuSafe hdrawsSafe,
    registerRoundReducerDouble_eq store _ hround hplayerSafe hcpuSafe hdrawsSafe, h]
  refine ⟨rfl, rfl, rfl, ?_, rfl, ?_⟩
  · simp [registerRoundReducer]
  · rw [mem_TYPES] at hp hc
    rcases hp with rfl | rfl | rfl <;> rcases hc with rfl | rfl | rfl <;> decide

/-- C2, amended, on the initial store with spell against monster. -/
theorem playRound_spec_witness :
    (initialState.score.player : Int) < ceilHalf initialState.bestOf ∧
      (initialState.score.cpu : Int) < ceilHalf initialState.bestOf ∧
      initialState.round < 2 ^ 53 ∧
      (playRoundDouble initialState (some "spell") "monster").round = 1 ∧
      (playRoundDouble initialState (some "spell") "monster").history =
        [⟨1, some "spell", some "monster", some "win"⟩] := by
  have h := playRound_spec initialState "spell" "monster" (by decide) (by decide)
    (by decide) (by decide) (by decide) (by decide) (by decide) (by decide)
  exact ⟨by decide, by decide, by decide, h.2.2.1, h.2.2.2.2.1.trans (by decide)⟩

/-- C5: on a concluded store (player or cpu at the threshold `ceil(bestOf/2)`) `playRound`
leaves the store as it is, whatever the argument and the cpu draw; so any run of further
`playRound` calls leaves it as it is, and it stays concluded. -/
theorem playRound_concluded (store : State) (arg : Option String) (c : String)
    (calls : List (Option String × String))
    (h : (store.score.player : Int) ≥ ceilHalf store.bestOf ∨
      (store.score.cpu : Int) ≥ ceilHalf store.bestOf) :
    playRound store arg c = store ∧ playRounds store calls = store ∧
      ((announceIfMatchEnded (playRounds store calls)).1 = true) := by
  have hrun : playRounds store calls = store := by
    unfold playRounds
    induction calls with
    | nil => rfl
    | cons call rest ih =>
      rw [List.foldl_cons, playRound_of_concluded store call.1 call.2 h]
      exact ih
  refine ⟨playRound_of_concluded store arg c h, hrun, ?_⟩
  rw [hrun]
  exact (announce_fst_eq_true store).2 h

/-- C5 on the store reached by three won rounds of a best of 5: a further call with spell,
and a run of two further calls, change nothing. -/
theorem playRound_concluded_witness :
    (playRounds initialState
        [(some "monster", "trap"), (some "monster", "trap"), (some "monster", "trap")]).score.player
        = 3 ∧
      playRound (playRounds initialState
        [(some "monster", "trap"), (some "monster", "trap"), (some "monster", "trap")])
        (some "spell") "monster" =
        playRounds initialState
          [(some "monster", "trap"), (some "monster", "trap"), (some "monster", "trap")] := by
  refine ⟨by decide, ?_⟩
  exact (playRound_concluded _ (some "spell") "monster"
    [(some "trap", "spell"), (none, "trap")] (by decide)).1

/-- C6: with an argument that is not one of the three types (any other string, or no value
at all) `playRound` returns the store it was given, concluded or not. -/
theorem playRound_invalid (store : State) (arg : Option String) (c : String)
    (h : ∀ p, arg = some p → p ∉ TYPES) :
    playRound store arg c = store ∧ (playRound store arg c).round = store.round ∧
      (playRound store arg c).score = store.score ∧
      (playRound store arg c).history = store.history := by
  rw [playRound_of_invalid store arg c h]
  exact ⟨rfl, rfl, rfl, rfl⟩

/-- C6 on the initial store with the argument "dragon". -/
theorem playRound_invalid_witness :
    playRound initialState (some "dragon") "trap" = initialState :=
  (playRound_invalid initialState (some "dragon") "trap"
    (by intro p hp; cases hp; decide)).1

/-! ## Invariants -/

/-- C4: in every reachable state the three counters add up to the length of the history,
which is the round number. -/
theorem reachable_counts (s : State) (h : Reachable s) :
    s.score.player + s.score.cpu + s.score.draws = s.history.length ∧
      s.history.length = s.round := by
  induction h with
  | init => exact ⟨rfl, rfl⟩
  | play s arg c _ _ ih =>
    rcases playRound_cases s arg c with h1 | ⟨p, _, h1⟩
    · rw [h1]; exact ih
    · rw [h1]
      refine ⟨?_, ?_⟩
      · rw [registerRoundReducer_counts]
        simp only [registerRoundReducer, List.length_append, List.length_singleton]
        omega
      · simp only [registerRoundReducer, List.length_append, List.length_singleton]
        omega
  | reset s _ _ => exact ⟨rfl, rfl⟩
  | setBestOf s n _ ih => exact ih

/-- C4 on the state reached by a drawn round, a change to best of 3 and a lost round. -/
theorem reachable_counts_witness :
    (playRound (setBestOfReducer (playRound initialState (some "trap") "trap") 3)
        (some "spell") "trap").score = { player := 0, cpu := 1, draws := 1 } ∧
      (playRound (setBestOfReducer (playRound initialState (some "trap") "trap") 3)
        (some "spell") "trap").history.length = 2 ∧
      (playRound (setBestOfReducer (playRound initialState (some "trap") "trap") 3)
        (some "spell") "trap").round = 2 := by
  have h := reachable_counts _
    (Reachable.play _ (some "spell") "trap"
      (Reachable.setBestOf _ 3
        (Reachable.play _ (some "trap") "trap" Reachable.init (by decide))) (by decide))
  exact ⟨by decide, by decide, h.2.symm.trans (by decide)⟩

/-! ## Matches played by `playRound` alone -/

/-- C13: for odd `n ≥ 1`, in a state reached from the fresh state with `bestOf = n` by
`playRound` calls alone, the player and the cpu are never both at the threshold
`ceil(n/2)`; hence in a concluded state the two scores differ. -/
theorem playReachable_not_both (n : Int) (hn : 1 ≤ n) (_hodd : Odd n) (s : State)
    (h : PlayReachable n s) :
    ¬ ((s.score.player : Int) ≥ ceilHalf n ∧ (s.score.cpu : Int) ≥ ceilHalf n) ∧
      (((s.score.player : Int) ≥ ceilHalf n ∨ (s.score.cpu : Int) ≥ ceilHalf n) →
        s.score.player ≠ s.score.cpu) := by
  obtain ⟨_, h1, h2, h3⟩ := playReachable_inv n hn s h
  refine ⟨by omega, ?_⟩
  intro hc heq
  rw [heq] at h1 h3 hc
  omega

/-- C13 on a best of 3 after a won and a lost round and a second won round: 2 to 1. -/
theorem playReachable_not_both_witness :
    (playRounds (freshState 3)
        [(some "monster", "trap"), (some "monster", "spell"), (some "spell", "monster")]).score
        = { player := 2, cpu := 1, draws := 0 } ∧
      (playRounds (freshState 3)
        [(some "monster", "trap"), (some "monster", "spell"), (some "spell", "monster")]).score.player
        ≠ (playRounds (freshState 3)
        [(some "monster", "trap"), (some "monster", "spell"), (some "spell", "monster")]).score.cpu :=
  ⟨by decide,
    (playReachable_not_both 3 (by decide) ⟨1, by decide⟩ _
      (playReachable_playRounds 3
        [(some "monster", "trap"), (some "monster", "spell"), (some "spell", "monster")]
        (freshState 3) PlayReachable.fresh (by decide))).2 (by decide)⟩

/-- C14 as stated fails: there are no even `n ≥ 2` and no state reached from the fresh
state with `bestOf = n` by `playRound` calls alone that is concluded with equal scores. -/
theorem no_tie_for_even_bestOf :
    ¬ ∃ n : Int, Even n ∧ 2 ≤ n ∧ ∃ s : State, PlayReachable n s ∧
      ((s.score.player : Int) ≥ ceilHalf n ∨ (s.score.cpu : Int) ≥ ceilHalf n) ∧
      s.score.player = s.score.cpu := by
  rintro ⟨n, _, hn, s, hs, hc, heq⟩
  obtain ⟨_, h1, h2, h3⟩ := playReachable_inv n (by omega) s hs
  rw [heq] at h1 h3 hc
  omega

/-- C14, amended: for even `n ≥ 2`, a concluded state reached from the fresh state with
`bestOf = n` by `playRound` calls alone never has equal scores: the side at the threshold
`ceil(n/2)` is strictly ahead of the other. -/
theorem even_bestOf_no_tie (n : Int) (hn : 2 ≤ n) (_heven : Even n) (s : State)
    (h : PlayReachable n s)
    (hc : (s.score.player : Int) ≥ ceilHalf n ∨ (s.score.cpu : Int) ≥ ceilHalf n) :
    s.score.player ≠ s.score.cpu ∧
      ((s.score.player : Int) = ceilHalf n ∧ s.score.cpu < s.score.player ∨
        (s.score.cpu : Int) = ceilHalf n ∧ s.score.player < s.score.cpu) := by
  obtain ⟨_, h1, h2, h3⟩ := playReachable_inv n (by omega) s h
  constructor
  · intro heq
    rw [heq] at h1 h3 hc
    omega
  · omega

/-- C14, amended, on a best of 4 after a won, a lost and a second lost round: the match is
concluded at 1 to 2. -/
theorem even_bestOf_no_tie_witness :
    (playRounds (freshState 4)
        [(some "monster", "trap"), (some "monster", "spell"), (some "trap", "monster")]).score
        = { player := 1, cpu := 2, draws := 0 } ∧
      (playRounds (freshState 4)
        [(some "monster", "trap"), (some "monster", "spell"), (some "trap", "monster")]).score.player
        ≠ (playRounds (freshState 4)
        [(some "monster", "trap"), (some "monster", "spell"), (some "trap", "monster")]).score.cpu :=
  ⟨by decide,
    (even_bestOf_no_tie 4 (by decide) ⟨2, by decide⟩ _
      (playReachable_playRounds 4
        [(some "monster", "trap"), (some "monster", "spell"), (some "trap", "monster")]
        (freshState 4) PlayReachable.fresh (by decide)) (by decide)).1⟩

/-- C17: for `n ≥ 1`, on a concluded state reached from the fresh state with `bestOf = n`
by `playRound` calls alone, `announceIfMatchEnded` writes the player's victory exactly when
the player is at the threshold `ceil(n/2)`, and the cpu's victory exactly when the cpu is. -/
theorem announce_winner (n : Int) (hn : 1 ≤ n) (s : State) (h : PlayReachable n s)
    (hc : (s.score.player : Int) ≥ ceilHalf n ∨ (s.score.cpu : Int) ≥ ceilHalf n) :
    (announceIfMatchEnded s).1 = true ∧
      ((announceIfMatchEnded s).2 = some (Announcement.playerWonMatch n) ↔
        (s.score.player : Int) ≥ ceilHalf n) ∧
      ((announceIfMatchEnded s).2 = some (Announcement.cpuWonMatch n) ↔
        (s.score.cpu : Int) ≥ ceilHalf n) := by
  obtain ⟨hb, h1, h2, h3⟩ := playReachable_inv n hn s h
  have hc2 : (s.score.player : Int) ≥ ceilHalf s.bestOf ∨
      (s.score.cpu : Int) ≥ ceilHalf s.bestOf := by rw [hb]; exact hc
  refine ⟨(announce_fst_eq_true s).2 hc2, ?_⟩
  rw [announce_snd_of_concluded s hc2, hb]
  by_cases hgt : s.score.player > s.score.cpu
  · simp only [hgt, if_true]
    constructor
    · exact ⟨fun _ => by omega, fun _ => trivial⟩
    · constructor
      · intro hcontra
        cases hcontra
      · intro hcpu
        omega
  · simp only [hgt, if_false]
    constructor
    · constructor
      · intro hcontra
        cases hcontra
      · intro hpl
        omega
    · exact ⟨fun _ => by omega, fun _ => trivial⟩

/-- C17 on a best of 3 lost 0 to 2: the cpu's victory is written. -/
theorem announce_winner_witness :
    (playRounds (freshState 3) [(some "monster", "spell"), (some "trap", "monster")]).score
        = { player := 0, cpu := 2, draws := 0 } ∧
      (announceIfMatchEnded (playRounds (freshState 3)
        [(some "monster", "spell"), (some "trap", "monster")])).2
        = some (Announcement.cpuWonMatch 3) :=
  ⟨by decide,
    (announce_winner 3 (by decide) _
      (playReachable_playRounds 3 [(some "monster", "spell"), (some "trap", "monster")]
        (freshState 3) PlayReachable.fresh (by decide)) (by decide)).2.2.2 (by decide)⟩

/-- C18: for `n ≥ 1`, in a state reached from the fresh state with `bestOf = n` by
`playRound` calls alone, neither score exceeds `ceil(n/2)` and the two together are at most
`2 * ceil(n/2) - 1`, which is at most `n`: a best of `n` has at most `n` decisive rounds. -/
theorem decisive_rounds_bound (n : Int) (hn : 1 ≤ n) (s : State) (h : PlayReachable n s) :
    (s.score.player : Int) ≤ ceilHalf n ∧ (s.score.cpu : Int) ≤ ceilHalf n ∧
      (s.score.player : Int) + (s.score.cpu : Int) ≤ 2 * ceilHalf n - 1 ∧
      2 * ceilHalf n - 1 ≤ n := by
  obtain ⟨_, h1, h2, h3⟩ := playReachable_inv n hn s h
  refine ⟨h1, h2, by omega, ?_⟩
  unfold ceilHalf
  omega

/-- C18 on a best of 3 that went 2 to 1: three decisive rounds, the bound `2 * 2 - 1`. -/
theorem decisive_rounds_bound_witness :
    (playRounds (freshState 3)
        [(some "monster", "trap"), (some "monster", "spell"), (some "spell", "monster")]).score
        = { player := 2, cpu := 1, draws := 0 } ∧
      2 * ceilHalf 3 - 1 = 3 ∧
      ((playRounds (freshState 3)
          [(some "monster", "trap"), (some "monster", "spell"),
            (some "spell", "monster")]).score.player : Int) +
        ((playRounds (freshState 3)
          [(some "monster", "trap"), (some "monster", "spell"),
            (some "spell", "monster")]).score.cpu : Int) ≤ 2 * ceilHalf 3 - 1 :=
  ⟨by decide, by decide,
    (decisive_rounds_bound 3 (by decide) _
      (playReachable_playRounds 3
        [(some "monster", "trap"), (some "monster", "spell"), (some "spell", "monster")]
        (freshState 3) PlayReachable.fresh (by decide))).2.2.1⟩

/-- C11: for odd `n ≥ 1`, start from the fresh state with `bestOf = n` and play rounds that
the player wins.  After fewer than `ceil(n/2)` of them the player's score is the number of
rounds and the match is not concluded; after exactly `ceil(n/2)` of them the player's score
is `ceil(n/2)`, the match is concluded, and a further `playRound` call, whatever its
argument and the cpu draw, leaves `round` at `ceil(n/2)`. -/
theorem winning_run (n : Int) (hn : 1 ≤ n) (_hodd : Odd n)
    (calls : List (Option String × String))
    (hwin : ∀ call ∈ calls, ∃ p, call.1 = some p ∧ decide p call.2 = some "win") :
    ((calls.length : Int) < ceilHalf n →
        (playRounds (freshState n) calls).score.player = calls.length ∧
        ((playRounds (freshState n) calls).score.player : Int) < ceilHalf n ∧
        ((playRounds (freshState n) calls).score.cpu : Int) < ceilHalf n ∧
        (announceIfMatchEnded (playRounds (freshState n) calls)).1 = false) ∧
      ((calls.length : Int) = ceilHalf n →
        ((playRounds (freshState n) calls).score.player : Int) = ceilHalf n ∧
        (announceIfMatchEnded (playRounds (freshState n) calls)).1 = true ∧
        ((playRounds (freshState n) calls).round : Int) = ceilHalf n ∧
        ∀ (arg : Option String) (c : String),
          ((playRound (playRounds (freshState n) calls) arg c).round : Int) = ceilHalf n) := by
  have hpos := ceilHalf_pos n hn
  have hfresh : (freshState n).bestOf = n := rfl
  have hp0 : (freshState n).score.player = 0 := rfl
  have hc0 : (freshState n).score.cpu = 0 := rfl
  have hr0 : (freshState n).round = 0 := rfl
  constructor
  · intro hlt
    obtain ⟨e1, e2, _, e4⟩ := winning_run_aux calls (freshState n) hwin
      (by rw [hfresh, hp0]; push_cast; omega) (by rw [hfresh, hc0]; push_cast; omega)
    rw [hp0] at e1
    rw [hc0] at e2
    have hnot : ¬ (announceIfMatchEnded (playRounds (freshState n) calls)).1 = true := by
      rw [announce_fst_eq_true, e4, hfresh, e1, e2]
      push_cast
      omega
    refine ⟨by omega, by rw [e1]; push_cast; omega, by rw [e2]; push_cast; omega, ?_⟩
    simpa using hnot
  · intro heq
    obtain ⟨e1, e2, e3, e4⟩ := winning_run_aux calls (freshState n) hwin
      (by rw [hfresh, hp0]; push_cast; omega) (by rw [hfresh, hc0]; push_cast; omega)
    rw [hp0] at e1
    rw [hr0] at e3
    have hconc : ((playRounds (freshState n) calls).score.player : Int) ≥
          ceilHalf (playRounds (freshState n) calls).bestOf ∨
        ((playRounds (freshState n) calls).score.cpu : Int) ≥
          ceilHalf (playRounds (freshState n) calls).bestOf := by
      left
      rw [e4, hfresh, e1]
      push_cast
      omega
    refine ⟨by rw [e1]; push_cast; omega, (announce_fst_eq_true _).2 hconc,
      by rw [e3]; push_cast; omega, ?_⟩
    intro arg c
    rw [playRound_of_concluded _ arg c hconc, e3]
    push_cast
    omega

/-- C11 on the scenario of the specification: best of 5, monster against trap three times;
the player has 3, the match is concluded, and a following `playRound('spell')` leaves
`round` at 3. -/
theorem winning_run_witness :
    ((playRounds (freshState 5)
        [(some "monster", "trap"), (some "monster", "trap"), (some "monster", "trap")]).score.player
        : Int) = 3 ∧
      (announceIfMatchEnded (playRounds (freshState 5)
        [(some "monster", "trap"), (some "monster", "trap"), (some "monster", "trap")])).1
        = true ∧
      ((playRound (playRounds (freshState 5)
        [(some "monster", "trap"), (some "monster", "trap"), (some "monster", "trap")])
        (some "spell") "monster").round : Int) = 3 := by
  have h := (winning_run 5 (by decide) ⟨2, by decide⟩
    [(some "monster", "trap"), (some "monster", "trap"), (some "monster", "trap")]
    (by decide)).2 (by decide)
  exact ⟨h.1.trans (by decide), h.2.1, (h.2.2.2 (some "spell") "monster").trans (by decide)⟩

/-! ## The value of `playRound` and the match-ended flag -/

/-- C12 as stated fails: on the concluded store reached by three won rounds of a best of 5,
`announceIfMatchEnded` returns `true`, and the call `playRound('spell')` evaluates to
`undefined`, not to a flag that is `true`. -/
theorem playRound_returns_no_flag :
    (announceIfMatchEnded (playRounds (freshState 5)
        [(some "monster", "trap"), (some "monster", "trap"), (some "monster", "trap")])).1
        = true ∧
      playRoundValue (playRounds (freshState 5)
        [(some "monster", "trap"), (some "monster", "trap"), (some "monster", "trap")])
        (some "spell") "monster" = none ∧
      playRoundValue (playRounds (freshState 5)
        [(some "monster", "trap"), (some "monster", "trap"), (some "monster", "trap")])
        (some "spell") "monster" ≠ some true := by
  decide

/-- C12, amended: for every state, argument and cpu draw, `playRound` returns no value; the
match-ended flag is what `announceIfMatchEnded` returns on the store the call leaves, and it
is `true` exactly when that store is concluded (player or cpu at `ceil(bestOf/2)`); it is
`true` in particular after a call on a store that was already concluded. -/
theorem playRound_flag (store : State) (arg : Option String) (c : String) :
    playRoundValue store arg c = none ∧
      ((announceIfMatchEnded (playRound store arg c)).1 = true ↔
        (((playRound store arg c).score.player : Int) ≥ ceilHalf (playRound store arg c).bestOf ∨
          ((playRound store arg c).score.cpu : Int) ≥
            ceilHalf (playRound store arg c).bestOf)) ∧
      (((store.score.player : Int) ≥ ceilHalf store.bestOf ∨
          (store.score.cpu : Int) ≥ ceilHalf store.bestOf) →
        (announceIfMatchEnded (playRound store arg c)).1 = true) := by
  refine ⟨?_, announce_fst_eq_true _, ?_⟩
  · unfold playRoundValue
    split_ifs
    · rfl
    · cases arg with
      | none => rfl
      | some p =>
        dsimp only
        split_ifs <;> rfl
  · intro h
    rw [playRound_of_concluded store arg c h]
    exact (announce_fst_eq_true store).2 h

/-- C12, amended, on a best of 3: the round that takes the player to 2 leaves a store on
which `announceIfMatchEnded` returns `true`, and the call itself returns no value. -/
theorem playRound_flag_witness :
    playRoundValue (playRound (freshState 3) (some "monster") "trap") (some "trap") "spell"
        = none ∧
      (announceIfMatchEnded
        (playRound (playRound (freshState 3) (some "monster") "trap") (some "trap") "spell")).1
        = true :=
  ⟨(playRound_flag (playRound (freshState 3) (some "monster") "trap") (some "trap") "spell").1,
    (playRound_flag (playRound (freshState 3) (some "monster") "trap")
      (some "trap") "spell").2.1.2 (by decide)⟩

/-! ## Changing the match length -/

/-- C15: `setBestOfReducer s n` followed by `resetReducer` is the fresh state with
`bestOf = n`, whatever the history of `s`: empty history, round 0, zero score, no last
round.  This is what the best-of change listener leaves in the store. -/
theorem setBestOf_then_reset (s : State) (n : Int) :
    resetReducer (setBestOfReducer s n) = freshState n ∧
      onBestOfChange s n = freshState n ∧
      (resetReducer (setBestOfReducer s n)).bestOf = n ∧
      (resetReducer (setBestOfReducer s n)).history = [] ∧
      (resetReducer (setBestOfReducer s n)).round = 0 ∧
      (resetReducer (setBestOfReducer s n)).score = { player := 0, cpu := 0, draws := 0 } ∧
      (resetReducer (setBestOfReducer s n)).last =
        { player := none, cpu := none, outcome := none } :=
  ⟨rfl, rfl, rfl, rfl, rfl, rfl, rfl⟩

/-- C15 on the scenario of the specification: `setBestOf(3)` and a reset on a state with
one round in its history. -/
theorem setBestOf_then_reset_witness :
    (playRound initialState (some "monster") "trap").history.length = 1 ∧
      (resetReducer (setBestOfReducer (playRound initialState (some "monster") "trap") 3)).bestOf
        = 3 ∧
      (resetReducer (setBestOfReducer (playRound initialState (some "monster") "trap") 3)).history
        = [] :=
  ⟨by decide,
    (setBestOf_then_reset (playRound initialState (some "monster") "trap") 3).2.2.1,
    (setBestOf_then_reset (playRound initialState (some "monster") "trap") 3).2.2.2.1⟩

/-- C20: for an integer `n ≤ 0` the threshold `ceil(n/2)` is at most 0, so every state with
`bestOf = n` is concluded and `playRound` leaves it as it is, whatever the argument and the
cpu draw; on the fresh state, at 0 to 0, `announceIfMatchEnded` writes the cpu's victory. -/
theorem nonpositive_bestOf (n : Int) (hn : n ≤ 0) (s : State) (hs : s.bestOf = n)
    (arg : Option String) (c : String) :
    ceilHalf n ≤ 0 ∧ (announceIfMatchEnded s).1 = true ∧ playRound s arg c = s ∧
      announceIfMatchEnded (freshState n) = (true, some (Announcement.cpuWonMatch n)) := by
  have hceil : ceilHalf n ≤ 0 := by
    unfold ceilHalf
    omega
  have hconc : (s.score.player : Int) ≥ ceilHalf s.bestOf ∨
      (s.score.cpu : Int) ≥ ceilHalf s.bestOf := by
    left
    rw [hs]
    omega
  refine ⟨hceil, (announce_fst_eq_true s).2 hconc, playRound_of_concluded s arg c hconc, ?_⟩
  have hfresh : ((freshState n).score.player : Int) ≥ ceilHalf (freshState n).bestOf ∨
      ((freshState n).score.cpu : Int) ≥ ceilHalf (freshState n).bestOf := by
    left
    show ((0 : Nat) : Int) ≥ ceilHalf n
    omega
  have h1 := (announce_fst_eq_true (freshState n)).2 hfresh
  have h2 := announce_snd_of_concluded (freshState n) hfresh
  have h3 : (if (freshState n).score.player > (freshState n).score.cpu
      then Announcement.playerWonMatch (freshState n).bestOf
      else Announcement.cpuWonMatch (freshState n).bestOf) = Announcement.cpuWonMatch n := rfl
  rw [h3] at h2
  exact Prod.ext h1 h2

/-- C20 with `bestOf = 0`: the fresh state is concluded, a valid round changes nothing, and
the cpu is announced. -/
theorem nonpositive_bestOf_witness :
    playRound (freshState 0) (some "monster") "trap" = freshState 0 ∧
      announceIfMatchEnded (freshState 0) = (true, some (Announcement.cpuWonMatch 0)) :=
  ⟨(nonpositive_bestOf 0 (by decide) (freshState 0) rfl (some "monster") "trap").2.2.1,
    (nonpositive_bestOf 0 (by decide) (freshState 0) rfl (some "monster") "trap").2.2.2⟩

/-! ## Score and history -/

/-- C19: in every reachable state each score counter is the number of history records with
the matching outcome (player: win, cpu: lose, draws: draw), the record at position `k`
counted from 1 has `round = k`, and the outcome of every record is `decide` of its player
and cpu choices, which are two of the three types. -/
theorem reachable_history (s : State) (h : Reachable s) :
    s.score.player = (s.history.filter (fun r => r.outcome = some "win")).length ∧
      s.score.cpu = (s.history.filter (fun r => r.outcome = some "lose")).length ∧
      s.score.draws = (s.history.filter (fun r => r.outcome = some "draw")).length ∧
      (∀ k r, s.history[k]? = some r → r.round = k + 1) ∧
      (∀ r ∈ s.history, ∃ p c, p ∈ TYPES ∧ c ∈ TYPES ∧ r.player = some p ∧ r.cpu = some c ∧
        r.outcome = decide p c) :=
  (reachable_history_inv s h).2

/-- C19 on the state reached by a drawn round, a won round, a call with an invalid argument
and a lost round: one record of each outcome, numbered 1, 2, 3. -/
theorem reachable_history_witness :
    (playRounds initialState
        [(some "trap", "trap"), (some "spell", "monster"), (some "dragon", "trap"),
          (some "spell", "trap")]).history =
        [⟨1, some "trap", some "trap", some "draw"⟩, ⟨2, some "spell", some "monster", some "win"⟩,
          ⟨3, some "spell", some "trap", some "lose"⟩] ∧
      (playRounds initialState
        [(some "trap", "trap"), (some "spell", "monster"), (some "dragon", "trap"),
          (some "spell", "trap")]).score.draws =
        ((playRounds initialState
          [(some "trap", "trap"), (some "spell", "monster"), (some "dragon", "trap"),
            (some "spell", "trap")]).history.filter (fun r => r.outcome = some "draw")).length :=
  ⟨by decide,
    (reachable_history _
      (Reachable.play _ (some "spell") "trap"
        (Reachable.play _ (some "dragon") "trap"
          (Reachable.play _ (some "spell") "monster"
            (Reachable.play _ (some "trap") "trap" Reachable.init (by decide)) (by decide))
          (by decide)) (by decide))).2.2.1⟩

/-! ## The opponent's draw -/

/-- C16 as stated fails: `r = 6004799503160661 / 2 ^ 53`, the double written
`0.6666666666666666`, has `1/3 ≤ r < 2/3`, yet the product `r * 3` rounds to `2` and
`cpuPlay` returns spell, not trap. -/
theorem cpuPlay_below_two_thirds :
    6004799503160661 < 2 ^ 53 ∧ (1 : ℚ) / 3 ≤ (6004799503160661 : ℚ) / 2 ^ 53 ∧
      (6004799503160661 : ℚ) / 2 ^ 53 < 2 / 3 ∧
      cpuPlay 6004799503160661 53 = some "spell" ∧
      cpuPlay 6004799503160661 53 ≠ some "trap" :=
  ⟨by norm_num, by norm_num, by norm_num, by decide, by decide⟩

/-- C16, amended: for a random value `r = mant / 2 ^ expo`, a double in `[0, 1)`, `cpuPlay`
returns one of the three types, never `undefined`.  It is monster exactly when `r < 1/3` and
`r` is not the largest double below `1/3`; trap exactly when `1/3 ≤ r` or `r` is that double,
and `r < 2/3`, and `r` is not the largest double below `2/3`; spell exactly when `2/3 ≤ r` or
`r` is that second double.  The random value is the only input of `cpuPlay`. -/
theorem cpuPlay_spec (mant expo : Nat) (hm : mant < 2 ^ 53) (he : 53 ≤ expo) :
    (cpuPlay mant expo = some "monster" ∨ cpuPlay mant expo = some "trap" ∨
        cpuPlay mant expo = some "spell") ∧
      (cpuPlay mant expo = some "monster" ↔
        (mant : ℚ) / 2 ^ expo < 1 / 3 ∧ (mant : ℚ) / 2 ^ expo ≠ belowOneThird) ∧
      (cpuPlay mant expo = some "trap" ↔
        (1 / 3 ≤ (mant : ℚ) / 2 ^ expo ∨ (mant : ℚ) / 2 ^ expo = belowOneThird) ∧
          (mant : ℚ) / 2 ^ expo < 2 / 3 ∧ (mant : ℚ) / 2 ^ expo ≠ belowTwoThirds) ∧
      (cpuPlay mant expo = some "spell" ↔
        2 / 3 ≤ (mant : ℚ) / 2 ^ expo ∨ (mant : ℚ) / 2 ^ expo = belowTwoThirds) := by
  obtain ⟨h3, h0, h2⟩ := timesLength_div mant expo hm he
  obtain ⟨k0, k1, k2⟩ := cpuPlay_index (timesLength mant / 2 ^ expo) h3
  have hA := random_lt_third mant expo
  have hB := random_eq_belowOneThird mant expo
  have hC := random_ge_two_thirds mant expo
  have hD := random_eq_belowTwoThirds mant expo
  have hA2 : 1 / 3 ≤ (mant : ℚ) / 2 ^ expo ↔ ¬ (mant * 3 < 2 ^ expo) := by
    rw [← hA, not_lt]
  have hC2 : (mant : ℚ) / 2 ^ expo < 2 / 3 ↔ ¬ (2 * 2 ^ expo ≤ mant * 3) := by
    rw [← hC, not_le]
  unfold cpuPlay
  rw [k0, k1, k2, hA, hC, hA2, hC2, Ne, Ne, hB, hD]
  generalize timesLength mant / 2 ^ expo = i at h3 h0 h2
  generalize 2 ^ expo = P at h0 h2
  omega

/-- C16, amended, at `r = 1/2`, which is `2 ^ 52 / 2 ^ 53`: the draw is trap. -/
theorem cpuPlay_spec_witness :
    4503599627370496 < 2 ^ 53 ∧ cpuPlay 4503599627370496 53 = some "trap" :=
  ⟨by norm_num,
    (cpuPlay_spec 4503599627370496 53 (by norm_num) (by norm_num)).2.2.1.2
      ⟨Or.inl (by norm_num), by norm_num, by norm_num [belowTwoThirds]⟩⟩

end Engine
